import Mathlib

/-!
A shallow embedding of the gateway-session and connection-state logic of the
`discord` package (files `discord/gateway.py`, `discord/state.py`,
`discord/client.py`).  Python dictionaries holding cached entities are
rendered as association lists with Python's assignment semantics (update in
place if the key exists, append otherwise); JSON frames become the `Frame`
structure; `asyncio.Future` handles become an explicit state
(pending / cancelled / resolved / failed); code paths that raise are modelled
with explicit outcome values.  Entity classes that live in repository files
outside the embedded three (`Server`, `User`, `Message`, ...) are modelled as
records carrying the payload fields the embedded code reads, as the spec
describes them.
-/

/-- A Discord user as cached by the client (`discord/user.py` is not part of
the embedded sources; modelled from the spec: user identity fields). -/
structure UserData where
  id : String
  name : String
deriving DecidableEq, Repr

/-- A server/guild as constructed by `Server(**guild)` from a READY guild
payload (`discord/server.py` is not part of the embedded sources; modelled
from the spec: id, "large" flag, declared member count). -/
structure ServerData where
  id : String
  large : Bool
  member_count : Nat
  name : String
deriving DecidableEq, Repr

/-- A `private_channels` entry of a READY payload:
`PrivateChannel(id=pm['id'], user=User(**pm['recipient']))`. -/
structure PMData where
  id : String
  recipient : UserData
deriving DecidableEq, Repr

/-- A cached `PrivateChannel` (modelled from the spec: reachable by its id
and by its peer user's id). -/
structure PrivChan where
  id : String
  user : UserData
deriving DecidableEq, Repr

/-- The `d` payload of a DISPATCH "READY" (or "RESUMED") frame, with the
fields the embedded code reads: `user`, `guilds`, `private_channels`,
`session_id`, `heartbeat_interval`. -/
structure ReadyPayload where
  user : UserData
  guilds : List ServerData
  private_channels : List PMData
  session_id : String
  heartbeat_interval : Nat
deriving DecidableEq, Repr

/-- A cached message.  `discord/message.py` is not part of the embedded
sources; modelled from the spec: id, text content, embeds, plus an opaque
field standing for all remaining attributes. -/
structure Message where
  id : String
  content : String
  embeds : List Nat
  extra : String
deriving DecidableEq, Repr

/-- The `d` payload of a MESSAGE_UPDATE frame.  `content` is optional (its
absence drives the embed-only edit path); `embeds` is the replacement embed
list; `extra` stands for the remaining optional attributes. -/
structure MsgUpdatePayload where
  id : String
  content : Option String
  embeds : List Nat
  extra : Option String
deriving DecidableEq, Repr

/-- The `d` field of a gateway frame.  `null` stands for an absent or null
payload; `tagged` stands for an opaque payload of an event the embedding
does not interpret. -/
inductive Payload where
  | null
  | ready (r : ReadyPayload)
  | msgUpd (m : MsgUpdatePayload)
  | tagged (n : Nat)
deriving DecidableEq, Repr

/-- A decoded gateway frame `{op, d, s?, t?}`.  The `s` field distinguishes
"key absent" (`none`) from "key present with null value" (`some none`),
because `received_message` tests `'s' in msg`. -/
structure Frame where
  op : Option Nat
  d : Payload
  s : Option (Option Int)
  t : Option String
deriving DecidableEq, Repr

/-- Gateway opcodes (`DiscordWebSocket` class constants). -/
def DiscordWebSocket.DISPATCH : Nat := 0
def DiscordWebSocket.HEARTBEAT : Nat := 1
def DiscordWebSocket.IDENTIFY : Nat := 2
def DiscordWebSocket.PRESENCE : Nat := 3
def DiscordWebSocket.VOICE_STATE : Nat := 4
def DiscordWebSocket.VOICE_PING : Nat := 5
def DiscordWebSocket.RESUME : Nat := 6
def DiscordWebSocket.RECONNECT : Nat := 7
def DiscordWebSocket.REQUEST_MEMBERS : Nat := 8
def DiscordWebSocket.INVALIDATE_SESSION : Nat := 9

/-- Python dict assignment `m[k] = v`: overwrite in place when the key is
present, append otherwise. -/
def dictInsert {β : Type} (k : String) (v : β) : List (String × β) → List (String × β)
  | [] => [(k, v)]
  | (k', v') :: rest => if k' = k then (k, v) :: rest else (k', v') :: dictInsert k v rest

/-- Python dict lookup `m.get(k)`. -/
def dictGet {β : Type} (k : String) : List (String × β) → Option β
  | [] => none
  | (k', v) :: rest => if k' = k then some v else dictGet k rest

/-- State of an `asyncio.Future` held by a gateway dispatch listener.
`doneRaw` is resolution with the raw `d` payload (no result transform),
`doneTrans` is resolution with `entry.result(data)`. -/
inductive EntryFut where
  | pending
  | cancelled
  | doneRaw (d : Payload)
  | doneTrans (r : Payload)
  | excepted (e : String)
deriving DecidableEq, Repr

/-- An `EventListener` registered via `DiscordWebSocket.wait_for`:
`(predicate, event, result, future)`.  Predicates may raise, rendered as
`Except.error`. -/
structure Entry where
  event : String
  predicate : Payload → Except String Bool
  result : Option (Payload → Payload)
  fut : EntryFut

/-- `DiscordWebSocket.wait_for`: create a pending future, append the entry,
return the updated listener list (the appended entry is the returned
handle). -/
def DiscordWebSocket.wait_for (ls : List Entry) (event : String)
    (predicate : Payload → Except String Bool) (result : Option (Payload → Payload)) :
    List Entry × Entry :=
  let entry : Entry := { event := event, predicate := predicate, result := result, fut := .pending }
  (ls ++ [entry], entry)

/-- The dispatch-listener scan of `DiscordWebSocket.received_message`
(lines 309-331), entry by entry.  Returns each entry with its final future
state and a removal mark, plus an abort flag: `future.set_result` /
`future.set_exception` on a future that is not pending raises
`asyncio.InvalidStateError`, which propagates out of the loop, so the
trailing deletions never run.  Note the source has no `continue` after the
`future.cancelled()` check: a cancelled entry still has its predicate
evaluated. -/
def gwProcessEntries (event : String) (data : Payload) :
    List Entry → List (Entry × Bool) × Bool
  | [] => ([], false)
  | e :: rest =>
    if e.event = event then
      match e.predicate data with
      | .error exc =>
        match e.fut with
        | .pending =>
          let (l, a) := gwProcessEntries event data rest
          (({ e with fut := .excepted exc }, true) :: l, a)
        | _ => ((e, false) :: rest.map (fun x => (x, false)), true)
      | .ok true =>
        match e.fut with
        | .pending =>
          let ret : EntryFut := match e.result with
            | none => .doneRaw data
            | some f => .doneTrans (f data)
          let (l, a) := gwProcessEntries event data rest
          (({ e with fut := ret }, true) :: l, a)
        | _ => ((e, false) :: rest.map (fun x => (x, false)), true)
      | .ok false =>
        let (l, a) := gwProcessEntries event data rest
        ((e, decide (e.fut = .cancelled)) :: l, a)
    else
      let (l, a) := gwProcessEntries event data rest
      ((e, false) :: l, a)

/-- The full listener pass of `received_message`: on normal completion the
marked entries are deleted (in reverse index order, i.e. a filter); on an
`InvalidStateError` abort the deletions never run and every entry stays
registered. -/
def gwDispatchListeners (event : String) (data : Payload) (ls : List Entry) :
    List Entry × Bool :=
  let (tagged, aborted) := gwProcessEntries event data ls
  (if aborted then tagged.map (fun x => x.1) else (tagged.filter (fun x => !x.2)).map (fun x => x.1), aborted)

/-- `ListenerType` enum of `discord/state.py` (a single member). -/
inductive ListenerType where
  | chunk
deriving DecidableEq, Repr

/-- State of an `asyncio.Future` held by a `ConnectionState` listener; chunk
listeners are resolved with `len(members)`. -/
inductive StFut where
  | pending
  | cancelled
  | done (n : Nat)
  | excepted (e : String)
deriving DecidableEq, Repr

/-- A `Listener` namedtuple of `discord/state.py`: `(type, future,
predicate)`; the predicate takes the chunk's server. -/
structure SListener where
  type : ListenerType
  fut : StFut
  predicate : ServerData → Except String Bool

/-- `ConnectionState.process_listeners`, entry by entry.  Unlike the gateway
loop this one `continue`s on a cancelled future (predicate not evaluated),
and `break`s after resolving a chunk-type listener.  Returns each visited
entry with its final future state and removal mark, the untouched tail after
a break unmarked, plus the `InvalidStateError` abort flag. -/
def stProcessEntries (listener_type : ListenerType) (argument : ServerData) (result : Nat) :
    List SListener → List (SListener × Bool) × Bool
  | [] => ([], false)
  | l :: rest =>
    if l.type = listener_type then
      match l.fut with
      | .cancelled =>
        let (t, a) := stProcessEntries listener_type argument result rest
        ((l, true) :: t, a)
      | f =>
        match l.predicate argument with
        | .error exc =>
          match f with
          | .pending =>
            let (t, a) := stProcessEntries listener_type argument result rest
            (({ l with fut := .excepted exc }, true) :: t, a)
          | _ => ((l, false) :: rest.map (fun x => (x, false)), true)
        | .ok true =>
          match f with
          | .pending =>
            -- set_result, mark removed, then `break` for chunk listeners:
            -- the rest of the list is left unvisited
            if l.type = ListenerType.chunk then
              (({ l with fut := .done result }, true) :: rest.map (fun x => (x, false)), false)
            else
              let (t, a) := stProcessEntries listener_type argument result rest
              (({ l with fut := .done result }, true) :: t, a)
          | _ => ((l, false) :: rest.map (fun x => (x, false)), true)
        | .ok false =>
          let (t, a) := stProcessEntries listener_type argument result rest
          ((l, false) :: t, a)
    else
      let (t, a) := stProcessEntries listener_type argument result rest
      ((l, false) :: t, a)

/-- `ConnectionState.process_listeners`: run the scan, then delete the
marked entries (skipped entirely when the scan aborted with
`InvalidStateError`). -/
def ConnectionState.process_listeners (listener_type : ListenerType) (argument : ServerData)
    (result : Nat) (ls : List SListener) : List SListener × Bool :=
  let (tagged, aborted) := stProcessEntries listener_type argument result ls
  (if aborted then tagged.map (fun x => x.1) else (tagged.filter (fun x => !x.2)).map (fun x => x.1), aborted)

/-- `ConnectionState.receive_chunk`: register a pending chunk listener whose
predicate matches the chunk's server id. -/
def ConnectionState.receive_chunk (guild_id : String) : SListener :=
  { type := .chunk, fut := .pending, predicate := fun s => .ok (s.id == guild_id) }

/-- `DiscordWebSocket._can_handle_close`:
`code in (4006, 4008, 4009) or code in range(1001, 1015)`. -/
def DiscordWebSocket._can_handle_close (code : Nat) : Bool :=
  code == 4006 || code == 4008 || code == 4009 || (1001 ≤ code && code < 1015)

/-- Outcome surfaced by `DiscordWebSocket.poll_event` when the socket closes. -/
inductive PollOutcome where
  | reconnectRequested
  | connectionClosed (code : Nat)
deriving DecidableEq, Repr

/-- The `ConnectionClosed` handler of `DiscordWebSocket.poll_event`: a close
code the session can handle raises `ReconnectWebSocket`, any other code
raises `ConnectionClosed`. -/
def DiscordWebSocket.poll_event_on_close (code : Nat) : PollOutcome :=
  if DiscordWebSocket._can_handle_close code then .reconnectRequested
  else .connectionClosed code

/-- Decode a byte sequence as ASCII, as `bytes.decode('ascii')` does
(fails on any byte above 127). -/
def asciiDecode (bs : List Nat) : Option String :=
  if bs.all (fun b => b < 128) then some (String.mk (bs.map Char.ofNat)) else none

/-- The discovery-reply parse of `DiscordVoiceWebSocket.initial_connection`:
`ip = recv[4:recv.index(0, 4)].decode('ascii')` and
`port = struct.unpack_from('<H', recv, len(recv) - 2)[0]` (little-endian
unsigned 16-bit in the last two bytes).  `none` models the `ValueError` /
`struct.error` raised on a reply without a null byte at or after offset 4 or
shorter than two bytes. -/
def DiscordVoiceWebSocket.initial_connection_parse (recv : List Nat) : Option (String × Nat) :=
  match (recv.drop 4).findIdx? (fun b => b == 0) with
  | none => none
  | some off =>
    match asciiDecode ((recv.drop 4).take off) with
    | none => none
    | some ip =>
      if recv.length < 2 then none
      else some (ip, recv.getD (recv.length - 2) 0 + 256 * recv.getD (recv.length - 1) 0)

/-- A member-chunk completion future created by
`ConnectionState.receive_chunk(server.id)` inside `chunks_needed`. -/
structure ChunkWaiter where
  guild_id : String
deriving DecidableEq, Repr

/-- `ConnectionState.chunks_needed`: one `receive_chunk` future per
`math.ceil(member_count / 1000)` expected chunks. -/
def ConnectionState.chunks_needed (server : ServerData) : List ChunkWaiter :=
  (List.range ((server.member_count + 999) / 1000)).map (fun _ => { guild_id := server.id })

/-- The guild batching of `ConnectionState._delay_ready`:
`splits = [servers[i:i + 75] for i in range(0, len(servers), 75)]`. -/
def ConnectionState.delay_ready_splits (servers : List ServerData) : List (List ServerData) :=
  match servers with
  | [] => []
  | s :: rest => ((s :: rest).take 75) :: ConnectionState.delay_ready_splits ((s :: rest).drop 75)
termination_by servers.length
decreasing_by simp; omega

/-- The chunk-future list of `ConnectionState._delay_ready`:
`chunks.extend(self.chunks_needed(server))` over the staged servers. -/
def ConnectionState.delay_ready_chunks (servers : List ServerData) : List ChunkWaiter :=
  (servers.map ConnectionState.chunks_needed).flatten

/-- State of the post-settle wait of `_delay_ready`: the chunk futures not
yet resolved, and whether the synthetic `ready` has been dispatched. -/
structure SettleState where
  pending : List ChunkWaiter
  readyEmitted : Bool
deriving DecidableEq, Repr

/-- Events of the settle wait: a guild-members-chunk event resolving one
pending waiter for that guild id, or the `dispatch('ready')` that runs when
`asyncio.wait(chunks)` returns. -/
inductive SettleEv where
  | resolve (g : String)
  | fireReady
deriving DecidableEq, Repr

/-- One step of the settle wait.  A chunk event resolves the first pending
waiter for its guild (and is impossible when none is pending);
`asyncio.wait(chunks)` returns — letting `dispatch('ready')` run — only once
every chunk future is done, and `ready` is dispatched once. -/
def settleStep (st : SettleState) : SettleEv → Option SettleState
  | .resolve g =>
    if st.pending.any (fun w => w.guild_id == g) then
      some { st with pending := st.pending.eraseP (fun w => w.guild_id == g) }
    else none
  | .fireReady =>
    if st.pending.isEmpty && !st.readyEmitted then
      some { st with readyEmitted := true }
    else none

/-- Run the settle wait over a sequence of events; `none` when an event is
impossible in its state. -/
def settleRun (st : SettleState) : List SettleEv → Option SettleState
  | [] => some st
  | e :: rest =>
    match settleStep st e with
    | none => none
    | some st2 => settleRun st2 rest

/-- The guild ids resolved by a settle-event sequence. -/
def settleResolves (tr : List SettleEv) : List String :=
  tr.filterMap (fun e => match e with | .resolve g => some g | .fireReady => none)

/-- The cache fields of `ConnectionState` (everything `clear` resets except
`sequence`/`session_id`, plus the state `clear` leaves alone: the listener
registry `_listeners` and the READY staging list `_ready_state.servers`). -/
structure Cache where
  user : Option UserData := none
  servers : List (String × ServerData) := []
  voice_clients : List (String × Nat) := []
  private_channels : List (String × PrivChan) := []
  private_channels_by_user : List (String × PrivChan) := []
  messages : List Message := []
  ready_servers : Option (List ServerData) := none
  listeners : List SListener := []

/-- `ConnectionState`: the session fields (`sequence`, `session_id`), the
configured message-cache bound, and the cache. -/
structure ConnState where
  sequence : Option Int := none
  session_id : Option String := none
  max_messages : Nat := 5000
  cache : Cache := {}

/-- `ConnectionState.clear`: reset `user`, `sequence`, `session_id`, the
server / voice-client / private-channel maps (both indices) and the message
deque.  `_listeners` and a live `_ready_state` are not touched. -/
def ConnectionState.clear (s : ConnState) : ConnState :=
  { s with
    sequence := none
    session_id := none
    cache := { s.cache with
      user := none
      servers := []
      voice_clients := []
      private_channels := []
      private_channels_by_user := []
      messages := [] } }

/-- `ConnectionState.parse_ready`: install a fresh `_ready_state` with an
empty staging list, set `user`, add one server per guild payload (staging
the large ones), then register every private channel under both indices.
(The `create_task(self._delay_ready())` side effect is modelled separately
by the settle machine.) -/
def ConnectionState.parse_ready (c : Cache) (d : Payload) : Cache :=
  match d with
  | .ready r =>
    let c := { c with ready_servers := some [], user := some r.user }
    let c := r.guilds.foldl (fun c g =>
      let c := { c with servers := dictInsert g.id g c.servers }
      if g.large then
        { c with ready_servers := some ((c.ready_servers.getD []) ++ [g]) }
      else c) c
    r.private_channels.foldl (fun c pm =>
      let ch : PrivChan := { id := pm.id, user := pm.recipient }
      { c with
        private_channels := dictInsert ch.id ch c.private_channels
        private_channels_by_user := dictInsert ch.user.id ch c.private_channels_by_user }) c
  | _ => c

/-- `Message._update(channel, **data)` for a payload carrying `content`.
Modelled from the spec: `discord/message.py` is not among the embedded
sources; "a payload containing `content` performs a full update", i.e. every
field present in the payload overwrites the stored one. -/
def Message.update_full (m : Message) (u : MsgUpdatePayload) : Message :=
  { m with
    content := u.content.getD m.content
    embeds := u.embeds
    extra := u.extra.getD m.extra }

/-- `utils.find(lambda m: m.id == msg_id, self.messages)`. -/
def findMessage (msg_id : String) : List Message → Option Message
  | [] => none
  | m :: rest => if m.id = msg_id then some m else findMessage msg_id rest

/-- Mutate the first cached message with the given id in place (the deque
keeps its order; only the found object is updated). -/
def updateFirstMessage (msg_id : String) (f : Message → Message) : List Message → List Message
  | [] => []
  | m :: rest => if m.id = msg_id then f m :: rest else m :: updateFirstMessage msg_id f rest

/-- `ConnectionState.parse_message_update`: no-op when the message is not
cached; otherwise an embed-only edit when the payload has no `content` key,
a full `_update` when it does. -/
def ConnectionState.parse_message_update (c : Cache) (d : Payload) : Cache :=
  match d with
  | .msgUpd u =>
    match findMessage u.id c.messages with
    | none => c
    | some _ =>
      let f := fun (m : Message) =>
        if u.content.isNone then { m with embeds := u.embeds } else Message.update_full m u
      { c with messages := updateFirstMessage u.id f c.messages }
  | _ => c

/-- The `parse_<event>` lookup that `received_message` performs via
`getattr(self._connection, 'parse_' + event.lower())`, for the handlers this
embedding models; for every other event name the lookup either finds a
handler the claims do not touch or logs "Unhandled event" — both covered by
quantifying over routers where needed. -/
def stateRouter : String → Option (Cache → Payload → Cache) := fun ev =>
  if ev = "READY" then some ConnectionState.parse_ready
  else if ev = "MESSAGE_UPDATE" then some ConnectionState.parse_message_update
  else none

/-- The state of a `DiscordWebSocket`: its connection state, its registered
dispatch listeners, and its keep-alive driver (the stored
`heartbeat_interval` in milliseconds; `none` before the handshake or after
`close`). -/
structure WSState where
  conn : ConnState
  dispatch_listeners : List Entry := []
  keep_alive : Option Nat := none

/-- Exceptions that can escape `received_message`. -/
inductive ErrKind where
  | keyError
  | attrError
  | invalidState
deriving DecidableEq, Repr

/-- How one `received_message` call ends: normally, by raising
`ReconnectWebSocket`, or by an uncaught exception. -/
inductive GwOutcome where
  | ok
  | reconnectRaised
  | raised (k : ErrKind)
deriving DecidableEq, Repr

/-- Result of one `received_message` call: the mutated websocket state, the
outcome, and the cache event handlers (`parse_<event>`) that ran. -/
structure RMOut where
  ws : WSState
  outcome : GwOutcome
  handlers : List String := []

/-- Lines 267-268 of `received_message`: `if 's' in msg:
state.sequence = msg['s']` — performed before any opcode or event handling. -/
def applySeqUpdate (ws : WSState) (msg : Frame) : WSState :=
  match msg.s with
  | some v => { ws with conn := { ws.conn with sequence := v } }
  | none => ws

/-- The READY branch of `received_message` (lines 290-293): `state.clear()`,
then `state.sequence = msg['s']` and `state.session_id = data['session_id']`.
The second component reports the `KeyError` raised when the frame has no `s`
key or the payload no `session_id`; the partial mutations made before the
raise are kept, as in Python. -/
def readyApply (c : ConnState) (msg : Frame) : ConnState × Option GwOutcome :=
  let c := ConnectionState.clear c
  match msg.s with
  | none => (c, some (.raised .keyError))
  | some sv =>
    let c := { c with sequence := sv }
    match msg.d with
    | .ready r => ({ c with session_id := some r.session_id }, none)
    | _ => (c, some (.raised .keyError))

/-- Handler dispatch (lines 300-307) and the listener pass (309-331) of
`received_message`: `'parse_' + event.lower()` raises `AttributeError` when
the frame has no `t`; an unknown event name is logged and skipped; then the
dispatch listeners are scanned. -/
def DiscordWebSocket.received_message_tail
    (router : String → Option (Cache → Payload → Cache))
    (ws : WSState) (msg : Frame) (event : Option String) : RMOut :=
  match event with
  | none => { ws := ws, outcome := .raised .attrError }
  | some ev =>
    let (cache, handlers) :=
      match router ev with
      | some f => (f ws.conn.cache msg.d, [ev])
      | none => (ws.conn.cache, [])  -- log.info('Unhandled event ...')
    let ws := { ws with conn := { ws.conn with cache := cache } }
    let (ls, aborted) := gwDispatchListeners ev msg.d ws.dispatch_listeners
    { ws := { ws with dispatch_listeners := ls },
      outcome := if aborted then .raised .invalidState else .ok,
      handlers := handlers }

/-- `DiscordWebSocket.received_message` on a decoded frame (the zlib /
json decoding of lines 254-258 is upstream of the embedded logic; the
unconditional `socket_raw_receive` / `socket_response` debug dispatches are
not modelled).  `router` is the `parse_<event>` attribute table of the
connection state. -/
def DiscordWebSocket.received_message (router : String → Option (Cache → Payload → Cache))
    (ws : WSState) (msg : Frame) : RMOut :=
  let ws := applySeqUpdate ws msg
  if msg.op = some DiscordWebSocket.RECONNECT then
    -- close() (stopping the keep-alive) then raise ReconnectWebSocket
    { ws := { ws with keep_alive := none }, outcome := .reconnectRaised }
  else if msg.op = some DiscordWebSocket.INVALIDATE_SESSION then
    { ws := { ws with conn := { ws.conn with sequence := none, session_id := none } },
      outcome := .ok }
  else if msg.op ≠ some DiscordWebSocket.DISPATCH then
    -- log.info('Unhandled op ...')
    { ws := ws, outcome := .ok }
  else
    let event := msg.t
    let is_ready := event = some "READY"
    let (conn, failed) := if is_ready then readyApply ws.conn msg else (ws.conn, none)
    let ws := { ws with conn := conn }
    match failed with
    | some o => { ws := ws, outcome := o }
    | none =>
      if is_ready ∨ event = some "RESUMED" then
        match msg.d with
        | .ready r =>
          let ws := { ws with keep_alive := some r.heartbeat_interval }
          DiscordWebSocket.received_message_tail router ws msg event
        | _ => { ws := ws, outcome := .raised .keyError }
      else
        DiscordWebSocket.received_message_tail router ws msg event

/-- Feed a sequence of decoded frames through `received_message`, stopping
at the first frame whose processing does not end normally (a raised
exception breaks the receive loop). -/
def processRun (router : String → Option (Cache → Payload → Cache)) :
    WSState → List Frame → WSState × GwOutcome
  | ws, [] => (ws, .ok)
  | ws, f :: rest =>
    let r := DiscordWebSocket.received_message router ws f
    match r.outcome with
    | .ok => processRun router r.ws rest
    | o => (r.ws, o)

/-- The sequence value carried by a frame (`none` when the `s` key is absent
or null). -/
def sOf (f : Frame) : Option Int := f.s.bind id

/-- Maximum of a list of sequence numbers (`none` for the empty list). -/
def maxS : List Int → Option Int
  | [] => none
  | x :: xs => some (xs.foldl max x)

/-- The concrete 70-byte discovery reply of the spec's example: ASCII
"1.2.3.4" at offset 4 followed by a null, and 50000 little-endian in the
last two bytes. -/
def discoveryReplyExample : List Nat :=
  [0, 0, 0, 0] ++ [49, 46, 50, 46, 51, 46, 52] ++ 0 :: (List.replicate 56 0 ++ [80, 195])

/-- A dispatch waiter for "FOO" whose future was externally cancelled and
whose predicate accepts the payload. -/
def cancelledTrueWaiter : Entry :=
  { event := "FOO", predicate := fun _ => .ok true, result := none, fut := .cancelled }

/-- A dispatch waiter for "FOO" whose future was externally cancelled and
whose predicate rejects the payload. -/
def cancelledFalseWaiter : Entry :=
  { event := "FOO", predicate := fun _ => .ok false, result := none, fut := .cancelled }

/-- Number of listener entries resolved with a chunk result. -/
def resolvedCount (ls : List (SListener × Bool)) : Nat :=
  ls.countP (fun x => match x.1.fut with | .done _ => true | _ => false)

/-- A waiter for "FOO" with a matching predicate and a result transform. -/
def waiterA : Entry :=
  { event := "FOO", predicate := fun _ => .ok true, result := some (fun _ => .tagged 99), fut := .pending }

/-- A waiter for a different event name. -/
def waiterB : Entry :=
  { event := "BAR", predicate := fun _ => .ok true, result := none, fut := .pending }

/-- A waiter for "FOO" whose predicate rejects. -/
def waiterC : Entry :=
  { event := "FOO", predicate := fun _ => .ok false, result := none, fut := .pending }

/-- The server whose chunks arrive in the C10 witness scenario. -/
def chunkSrv : ServerData := { id := "g1", large := true, member_count := 2500, name := "big" }

/-- The cached message of the C9 witness. -/
def msgWitness : Message := { id := "m1", content := "hello", embeds := [1], extra := "attachments" }

/-- A second cached message untouched by the C9 witness update. -/
def msgOther : Message := { id := "m0", content := "other", embeds := [], extra := "o" }

/-- A staged large server used by the C5 witness. -/
def srvA : ServerData := { id := "ga", large := true, member_count := 800, name := "A" }

/-- A second staged large server used by the C5 witness. -/
def srvB : ServerData := { id := "gb", large := true, member_count := 800, name := "B" }

/-- First dispatch frame of the C1 witness run: an unrecognized event name
with sequence 3. -/
def seqFrame1 : Frame :=
  { op := some 0, d := .tagged 1, s := some (some 3), t := some "UNKNOWN_EVENT_A" }

/-- Second dispatch frame of the C1 witness run: another unrecognized event
name with sequence 5. -/
def seqFrame2 : Frame :=
  { op := some 0, d := .tagged 2, s := some (some 5), t := some "OTHER_EVENT" }

lemma findIdx?_append_zero (pb rest : List Nat) (h : ∀ b ∈ pb, b ≠ 0) (i : Nat) :
    List.findIdx? (fun b => b == 0) (pb ++ 0 :: rest) i = some (i + pb.length) := by
  induction pb generalizing i with
  | nil => simp [List.findIdx?_cons]
  | cons a pb ih =>
    have ha : a ≠ 0 := h a (by simp)
    have hrest : ∀ b ∈ pb, b ≠ 0 := fun b hb => h b (by simp [hb])
    simp only [List.cons_append, List.findIdx?_cons, beq_iff_eq, if_neg ha, ih hrest]
    congr 1
    simp [List.length_cons]
    omega

/-- C6.  For every socket-closure code observed by `poll_event`, the
surfaced condition is a reconnect request exactly when the code lies in
1001-1014 or is one of 4006/4008/4009 (the "restart session" codes), and a
fatal connection-closed error for every other code. -/
theorem close_code_recovery (code : Nat) :
    DiscordWebSocket.poll_event_on_close code =
      if (1001 ≤ code ∧ code ≤ 1014) ∨ code = 4006 ∨ code = 4008 ∨ code = 4009
      then PollOutcome.reconnectRequested
      else PollOutcome.connectionClosed code := by
  have h : DiscordWebSocket._can_handle_close code = true ↔
      ((1001 ≤ code ∧ code ≤ 1014) ∨ code = 4006 ∨ code = 4008 ∨ code = 4009) := by
    simp only [DiscordWebSocket._can_handle_close, Bool.or_eq_true, beq_iff_eq,
      Bool.and_eq_true, decide_eq_true_eq]
    omega
  unfold DiscordWebSocket.poll_event_on_close
  by_cases hc : (1001 ≤ code ∧ code ≤ 1014) ∨ code = 4006 ∨ code = 4008 ∨ code = 4009
  · rw [if_pos (h.mpr hc), if_pos hc]
  · rw [if_neg (fun hh => hc (h.mp hh)), if_neg hc]

/-- C7.  Processing a frame with the INVALIDATE_SESSION opcode (whatever its
payload, `s` field, event name, and whatever `parse_` handlers the
connection state exposes) sets `sequence` and `session_id` to null and
changes nothing else: the whole websocket state — cache, dispatch
listeners, keep-alive — is returned unchanged apart from those two fields,
no cache event handler runs, and no waiter is examined or resolved. -/
theorem invalidate_session_effect (router : String → Option (Cache → Payload → Cache))
    (ws : WSState) (d : Payload) (s : Option (Option Int)) (t : Option String) :
    DiscordWebSocket.received_message router ws { op := some 9, d := d, s := s, t := t } =
      { ws := { ws with conn := { ws.conn with sequence := none, session_id := none } },
        outcome := .ok, handlers := [] } := by
  cases s <;> rfl

/-- C8.  For every 70-byte discovery reply whose bytes from offset 4 up to
the first null are a nonzero ASCII string, the parse extracts that string as
the external IP and the little-endian unsigned 16-bit integer in the last
two bytes as the external port. -/
theorem udp_discovery_parse (hdr pb rest : List Nat)
    (hhdr : hdr.length = 4)
    (hip : ∀ b ∈ pb, b ≠ 0 ∧ b < 128)
    (recv : List Nat) (hrecv : recv = hdr ++ pb ++ 0 :: rest)
    (hlen : recv.length = 70) :
    DiscordVoiceWebSocket.initial_connection_parse recv =
      some (String.mk (pb.map Char.ofNat), recv.getD 68 0 + 256 * recv.getD 69 0) := by
  have hdrop : recv.drop 4 = pb ++ 0 :: rest := by
    rw [hrecv, List.append_assoc, ← hhdr, List.drop_left]
  have hfind : (recv.drop 4).findIdx? (fun b => b == 0) = some pb.length := by
    rw [hdrop]
    have := findIdx?_append_zero pb rest (fun b hb => (hip b hb).1) 0
    simpa using this
  have htake : (recv.drop 4).take pb.length = pb := by
    rw [hdrop]
    exact List.take_left pb (0 :: rest)
  have hascii : asciiDecode pb = some (String.mk (pb.map Char.ofNat)) := by
    unfold asciiDecode
    rw [if_pos]
    rw [List.all_eq_true]
    intro b hb
    simpa using (hip b hb).2
  unfold DiscordVoiceWebSocket.initial_connection_parse
  rw [hfind]
  simp only [htake, hascii, hlen]
  rfl

/-- C8 witness: the spec's concrete example reply parses to ip "1.2.3.4"
and port 50000. -/
theorem udp_discovery_parse_witness :
    ([0, 0, 0, 0] : List Nat).length = 4 ∧
    (∀ b ∈ ([49, 46, 50, 46, 51, 46, 52] : List Nat), b ≠ 0 ∧ b < 128) ∧
    discoveryReplyExample.length = 70 ∧
    DiscordVoiceWebSocket.initial_connection_parse discoveryReplyExample =
      some ("1.2.3.4", 50000) := by
  refine ⟨by decide, by decide, by decide, ?_⟩
  have h := udp_discovery_parse [0, 0, 0, 0] [49, 46, 50, 46, 51, 46, 52]
    (List.replicate 56 0 ++ [80, 195]) (by decide) (by decide)
    discoveryReplyExample rfl (by decide)
  exact h.trans (by decide)

/-- C3 (code bug).  In `received_message`'s waiter scan the
`future.cancelled()` check is not followed by `continue`, so a cancelled
waiter's predicate is still evaluated; when it matches, `set_result` is
called on the cancelled future, which raises `InvalidStateError`: the scan
aborts and the cancelled waiter is left registered instead of being pruned.
(A cancelled waiter whose predicate happens to reject is pruned, but only
after its predicate ran.)  `ConnectionState.process_listeners` in
`state.py` implements the intended behaviour with an explicit `continue`:
the cancelled listener is pruned without its predicate running. -/
theorem cancelled_waiter_aborts_dispatch :
    gwDispatchListeners "FOO" (.tagged 0) [cancelledTrueWaiter] =
      ([cancelledTrueWaiter], true) ∧
    gwDispatchListeners "FOO" (.tagged 0) [cancelledFalseWaiter] = ([], false) ∧
    ConnectionState.process_listeners .chunk { id := "g", large := true, member_count := 1, name := "" } 0
      [{ type := .chunk, fut := .cancelled, predicate := fun _ => .ok true }] = ([], false) := by
  exact ⟨rfl, rfl, rfl⟩

lemma filter_map_pair_false {α : Type} (l : List α) :
    (((l.map (fun x => (x, false))).filter (fun x => !x.2)).map (fun x => x.1)) = l := by
  induction l with
  | nil => rfl
  | cons a l ih => simp [List.filter_cons, ih]

/-- C2.  Dispatching event `E` with payload `d` examines every registered
waiter in registration order; with all handles still pending, a waiter is
resolved — with `result(d)` when a transform was registered, with `d`
itself otherwise — exactly when its event name is `E` and its predicate
returns true on `d` (a raising predicate resolves that waiter as failed);
resolved (and failed) waiters are removed, and waiters with a different
event name or a false predicate stay registered, untouched and in order. -/
theorem dispatch_waiter_resolution (E : String) (d : Payload) (ls : List Entry)
    (hp : ∀ e ∈ ls, e.fut = EntryFut.pending) :
    gwProcessEntries E d ls =
      (ls.map (fun e =>
        if e.event = E then
          match e.predicate d with
          | .ok true =>
            ({ e with fut := match e.result with
                | none => EntryFut.doneRaw d
                | some f => EntryFut.doneTrans (f d) }, true)
          | .ok false => (e, false)
          | .error exc => ({ e with fut := EntryFut.excepted exc }, true)
        else (e, false)), false) ∧
    gwDispatchListeners E d ls =
      (ls.filter (fun e =>
        if e.event = E then
          match e.predicate d with
          | .ok false => true
          | _ => false
        else true), false) := by
  have h1 : gwProcessEntries E d ls =
      (ls.map (fun e =>
        if e.event = E then
          match e.predicate d with
          | .ok true =>
            ({ e with fut := match e.result with
                | none => EntryFut.doneRaw d
                | some f => EntryFut.doneTrans (f d) }, true)
          | .ok false => (e, false)
          | .error exc => ({ e with fut := EntryFut.excepted exc }, true)
        else (e, false)), false) := by
    induction ls with
    | nil => rfl
    | cons e rest ih =>
      have hpe : e.fut = EntryFut.pending := hp e (by simp)
      have hprest : ∀ x ∈ rest, x.fut = EntryFut.pending := fun x hx => hp x (by simp [hx])
      have ih2 := ih hprest
      by_cases he : e.event = E
      · cases hpr : e.predicate d with
        | error exc =>
          simp only [gwProcessEntries, if_pos he, hpr, hpe, ih2, List.map_cons]
        | ok b =>
          cases b
          · simp only [gwProcessEntries, if_pos he, hpr, ih2, List.map_cons]
            simp [he, hpr, hpe]
          · simp only [gwProcessEntries, if_pos he, hpr, hpe, ih2, List.map_cons]
      · simp only [gwProcessEntries, if_neg he, ih2, List.map_cons]
  refine ⟨h1, ?_⟩
  have h2 : (((ls.map (fun e =>
      if e.event = E then
        match e.predicate d with
        | .ok true =>
          ({ e with fut := match e.result with
              | none => EntryFut.doneRaw d
              | some f => EntryFut.doneTrans (f d) }, true)
        | .ok false => (e, false)
        | .error exc => ({ e with fut := EntryFut.excepted exc }, true)
      else (e, false))).filter (fun x => !x.2)).map (fun x => x.1)) =
      ls.filter (fun e =>
        if e.event = E then
          match e.predicate d with
          | .ok false => true
          | _ => false
        else true) := by
    clear h1 hp
    induction ls with
    | nil => rfl
    | cons e rest ih =>
      simp only [List.map_cons, List.filter_cons]
      by_cases he : e.event = E
      · cases hpr : e.predicate d with
        | error exc => simp [he, hpr, ih]
        | ok b => cases b <;> simp [he, hpr, ih]
      · simp [he, ih]
  unfold gwDispatchListeners
  rw [h1]
  simpa using h2

/-- C2 witness: dispatching "FOO" against a matching waiter, a
different-name waiter and a false-predicate waiter resolves exactly the
first (with its transform) and leaves the other two registered. -/
theorem dispatch_waiter_resolution_witness :
    (∀ e ∈ [waiterA, waiterB, waiterC], e.fut = EntryFut.pending) ∧
    gwProcessEntries "FOO" (.tagged 7) [waiterA, waiterB, waiterC] =
      ([({ waiterA with fut := .doneTrans (.tagged 99) }, true), (waiterB, false), (waiterC, false)], false) ∧
    gwDispatchListeners "FOO" (.tagged 7) [waiterA, waiterB, waiterC] = ([waiterB, waiterC], false) := by
  have hp : ∀ e ∈ [waiterA, waiterB, waiterC], e.fut = EntryFut.pending := by
    intro e he
    simp only [List.mem_cons, List.not_mem_nil, or_false] at he
    rcases he with h | h | h <;> subst h <;> rfl
  have h := dispatch_waiter_resolution "FOO" (.tagged 7) [waiterA, waiterB, waiterC] hp
  refine ⟨hp, h.1.trans (by rfl), h.2.trans (by rfl)⟩

lemma filter_pair_false {α : Type} (l : List α) :
    (l.map (fun x => (x, false))).filter (fun x => !x.2) = l.map (fun x => (x, false)) := by
  induction l with
  | nil => rfl
  | cons a l ih => simp [List.filter_cons, ih]

lemma map_fst_pair_false {α : Type} (l : List α) :
    (l.map (fun x => (x, false))).map (fun x => x.1) = l := by
  induction l with
  | nil => rfl
  | cons a l ih => simp [ih]

lemma resolvedCount_map_false (ls : List SListener)
    (h : ∀ l ∈ ls, ∀ n, l.fut ≠ StFut.done n) :
    resolvedCount (ls.map (fun x => (x, false))) = 0 := by
  induction ls with
  | nil => rfl
  | cons a ls ih =>
    have ha : ∀ n, a.fut ≠ StFut.done n := h a (by simp)
    have hrest := ih (fun l hl n => h l (by simp [hl]) n)
    simp only [List.map_cons, resolvedCount, List.countP_cons] at hrest ⊢
    rw [hrest]
    cases hf : a.fut with
    | done n => exact absurd hf (ha n)
    | pending => rfl
    | cancelled => rfl
    | excepted e => rfl

lemma stProcess_first_match (arg : ServerData) (res : Nat)
    (lpre : List SListener) (e : SListener) (lpost : List SListener)
    (hpend : ∀ x ∈ lpre ++ e :: lpost, x.fut = StFut.pending)
    (hpre : ∀ x ∈ lpre, x.predicate arg = .ok false)
    (hee : e.predicate arg = .ok true) :
    stProcessEntries .chunk arg res (lpre ++ e :: lpost) =
      (lpre.map (fun x => (x, false)) ++
        ({ e with fut := .done res }, true) :: lpost.map (fun x => (x, false)), false) := by
  revert hpend hpre
  induction lpre with
  | nil =>
    intro hpend _
    have hef : e.fut = StFut.pending := hpend e (by simp)
    obtain ⟨ty, fu, pr⟩ := e
    cases ty
    simp only at hef
    subst hef
    simp only at hee
    simp [stProcessEntries, hee]
  | cons a lpre ih =>
    intro hpend hpre
    have haf : a.fut = StFut.pending := hpend a (by simp)
    have hap : a.predicate arg = .ok false := hpre a (by simp)
    have ih2 := ih (fun x hx => hpend x (by simp [List.mem_append] at hx ⊢; tauto))
      (fun x hx => hpre x (by simp [hx]))
    obtain ⟨ty, fu, pr⟩ := a
    cases ty
    simp only at haf hap
    subst haf
    simp only [List.cons_append, stProcessEntries, hap]
    simp [ih2]

/-- C10 (implicit).  The cache's listener scan resolves at most one
chunk-type listener per signal: the scan breaks at the first chunk listener
whose predicate matches; in particular, when the listeners up to the first
match are pending with rejecting predicates, exactly that first match is
resolved (with the chunk's member count) and removed, and every other
listener — before or after it — stays registered and pending, so each
subsequent chunk event can resolve the next waiter. -/
theorem chunk_listener_single_resolution (arg : ServerData) (res : Nat) (ls : List SListener)
    (hnd : ∀ l ∈ ls, ∀ n, l.fut ≠ StFut.done n) :
    resolvedCount (stProcessEntries .chunk arg res ls).1 ≤ 1 ∧
    (∀ lpre e lpost, ls = lpre ++ e :: lpost →
      (∀ x ∈ ls, x.fut = StFut.pending) →
      (∀ x ∈ lpre, x.predicate arg = .ok false) →
      e.predicate arg = .ok true →
      stProcessEntries .chunk arg res ls =
        (lpre.map (fun x => (x, false)) ++
          ({ e with fut := .done res }, true) :: lpost.map (fun x => (x, false)), false) ∧
      ConnectionState.process_listeners .chunk arg res ls = (lpre ++ lpost, false)) := by
  constructor
  · induction ls with
    | nil => simp [stProcessEntries, resolvedCount]
    | cons a ls ih =>
      have hand : ∀ n, a.fut ≠ StFut.done n := hnd a (by simp)
      have hrest : ∀ l ∈ ls, ∀ n, l.fut ≠ StFut.done n := fun l hl n => hnd l (by simp [hl]) n
      have ih2 := ih hrest
      obtain ⟨ty, fu, pr⟩ := a
      cases ty
      simp only at hand
      cases fu with
      | cancelled =>
        simp only [stProcessEntries]
        rcases h : stProcessEntries .chunk arg res ls with ⟨t, afl⟩
        rw [h] at ih2
        simpa [resolvedCount, List.countP_cons] using ih2
      | pending =>
        cases hpr : pr arg with
        | error exc =>
          simp only [stProcessEntries, hpr]
          rcases h : stProcessEntries .chunk arg res ls with ⟨t, afl⟩
          rw [h] at ih2
          simpa [resolvedCount, List.countP_cons] using ih2
        | ok b =>
          cases b
          · simp only [stProcessEntries, hpr]
            rcases h : stProcessEntries .chunk arg res ls with ⟨t, afl⟩
            rw [h] at ih2
            simpa [resolvedCount, List.countP_cons] using ih2
          · simp only [stProcessEntries, hpr]
            have h0 := resolvedCount_map_false ls hrest
            simp only [resolvedCount, List.countP_cons] at h0 ⊢
            simp [h0]
      | done n => exact absurd rfl (hand n)
      | excepted exc =>
        cases hpr : pr arg with
        | error e2 =>
          have h0 := resolvedCount_map_false ls hrest
          simp only [stProcessEntries, hpr]
          simp only [resolvedCount, List.countP_cons] at h0 ⊢
          simp [h0]
        | ok b =>
          cases b
          · simp only [stProcessEntries, hpr]
            rcases h : stProcessEntries .chunk arg res ls with ⟨t, afl⟩
            rw [h] at ih2
            simpa [resolvedCount, List.countP_cons] using ih2
          · simp only [stProcessEntries, hpr]
            have h0 := resolvedCount_map_false ls hrest
            simp only [resolvedCount, List.countP_cons] at h0 ⊢
            simp [h0]
  · intro lpre e lpost hls hpend hpre hee
    subst hls
    have htag := stProcess_first_match arg res lpre e lpost hpend hpre hee
    refine ⟨htag, ?_⟩
    unfold ConnectionState.process_listeners
    rw [htag]
    simp only [Bool.false_eq_true, if_false]
    rw [List.filter_append, filter_pair_false, List.filter_cons]
    simp only [Bool.not_true, Bool.false_eq_true, if_false]
    rw [filter_pair_false, List.map_append, map_fst_pair_false, map_fst_pair_false]

/-- C10 witness: with three pending chunk waiters registered for the same
server (one per expected chunk), one incoming guild-members-chunk signal
resolves exactly the first and leaves the other two pending. -/
theorem chunk_listener_single_resolution_witness :
    (∀ l ∈ [ConnectionState.receive_chunk "g1", ConnectionState.receive_chunk "g1",
            ConnectionState.receive_chunk "g1"], ∀ n, l.fut ≠ StFut.done n) ∧
    resolvedCount (stProcessEntries .chunk chunkSrv 1000
      [ConnectionState.receive_chunk "g1", ConnectionState.receive_chunk "g1",
       ConnectionState.receive_chunk "g1"]).1 ≤ 1 ∧
    ConnectionState.process_listeners .chunk chunkSrv 1000
      [ConnectionState.receive_chunk "g1", ConnectionState.receive_chunk "g1",
       ConnectionState.receive_chunk "g1"] =
      ([ConnectionState.receive_chunk "g1", ConnectionState.receive_chunk "g1"], false) := by
  have hnd : ∀ l ∈ [ConnectionState.receive_chunk "g1", ConnectionState.receive_chunk "g1",
      ConnectionState.receive_chunk "g1"], ∀ n, l.fut ≠ StFut.done n := by
    intro l hl n
    simp only [List.mem_cons, List.not_mem_nil, or_false] at hl
    rcases hl with h | h | h <;> subst h <;> exact fun hc => StFut.noConfusion hc
  have h := chunk_listener_single_resolution chunkSrv 1000
    [ConnectionState.receive_chunk "g1", ConnectionState.receive_chunk "g1",
     ConnectionState.receive_chunk "g1"] hnd
  have hscen := h.2 [] (ConnectionState.receive_chunk "g1")
    [ConnectionState.receive_chunk "g1", ConnectionState.receive_chunk "g1"] rfl
    (by intro x hx
        simp only [List.mem_cons, List.not_mem_nil, or_false] at hx
        rcases hx with h' | h' | h' <;> subst h' <;> rfl)
    (by intro x hx; simp at hx)
    (by rfl)
  exact ⟨hnd, h.1, hscen.2.trans (by rfl)⟩

lemma findMessage_append (mid : String) (pre post : List Message) (m : Message)
    (hfirst : ∀ x ∈ pre, x.id ≠ mid) (hid : m.id = mid) :
    findMessage mid (pre ++ m :: post) = some m := by
  induction pre with
  | nil => simp [findMessage, hid]
  | cons a pre ih =>
    have ha : a.id ≠ mid := hfirst a (by simp)
    simp only [List.cons_append, findMessage, if_neg ha]
    exact ih (fun x hx => hfirst x (by simp [hx]))

lemma updateFirstMessage_append (mid : String) (f : Message → Message)
    (pre post : List Message) (m : Message)
    (hfirst : ∀ x ∈ pre, x.id ≠ mid) (hid : m.id = mid) :
    updateFirstMessage mid f (pre ++ m :: post) = pre ++ f m :: post := by
  induction pre with
  | nil => simp [updateFirstMessage, hid]
  | cons a pre ih =>
    have ha : a.id ≠ mid := hfirst a (by simp)
    simp only [List.cons_append, updateFirstMessage, if_neg ha]
    simpa using ih (fun x hx => hfirst x (by simp [hx]))

/-- C9.  For a cached message, a message-update payload without a `content`
key replaces only that message's embeds — its stored text content and every
other field, and every other cached message, are unchanged — while a
payload carrying `content` performs the full `_update`. -/
theorem message_update_embed_only (c : Cache) (u : MsgUpdatePayload)
    (pre post : List Message) (m : Message)
    (hmsg : c.messages = pre ++ m :: post)
    (hfirst : ∀ x ∈ pre, x.id ≠ u.id)
    (hid : m.id = u.id) :
    (u.content = none →
      ConnectionState.parse_message_update c (.msgUpd u) =
        { c with messages := pre ++ { m with embeds := u.embeds } :: post } ∧
      ({ m with embeds := u.embeds } : Message).content = m.content ∧
      ({ m with embeds := u.embeds } : Message).extra = m.extra) ∧
    (∀ s, u.content = some s →
      ConnectionState.parse_message_update c (.msgUpd u) =
        { c with messages := pre ++ Message.update_full m u :: post }) := by
  have hfind : findMessage u.id c.messages = some m := by
    rw [hmsg]; exact findMessage_append u.id pre post m hfirst hid
  constructor
  · intro hc
    refine ⟨?_, rfl, rfl⟩
    simp only [ConnectionState.parse_message_update, hfind]
    rw [hmsg, updateFirstMessage_append u.id _ pre post m hfirst hid]
    simp [hc]
  · intro s hc
    simp only [ConnectionState.parse_message_update, hfind]
    rw [hmsg, updateFirstMessage_append u.id _ pre post m hfirst hid]
    simp [hc]

/-- C9 witness: an update payload for message "m1" without `content`
replaces only its embeds and keeps its text. -/
theorem message_update_embed_only_witness :
    ({ messages := [msgOther, msgWitness] } : Cache).messages = [msgOther] ++ msgWitness :: [] ∧
    (∀ x ∈ [msgOther], x.id ≠ "m1") ∧
    ConnectionState.parse_message_update { messages := [msgOther, msgWitness] }
      (.msgUpd { id := "m1", content := none, embeds := [7, 8], extra := none }) =
      { messages := [msgOther, { id := "m1", content := "hello", embeds := [7, 8], extra := "attachments" }] } := by
  have h := (message_update_embed_only { messages := [msgOther, msgWitness] }
    { id := "m1", content := none, embeds := [7, 8], extra := none }
    [msgOther] [] msgWitness rfl
    (by intro x hx; simp only [List.mem_cons, List.not_mem_nil, or_false] at hx; subst hx; decide)
    rfl).1 rfl
  exact ⟨rfl, by intro x hx; simp only [List.mem_cons, List.not_mem_nil, or_false] at hx; subst hx; decide,
    h.1.trans (by rfl)⟩

lemma guild_fold_proj (gs : List ServerData) (c : Cache) :
    ((gs.foldl (fun c g =>
      let c := { c with servers := dictInsert g.id g c.servers }
      if g.large then
        { c with ready_servers := some ((c.ready_servers.getD []) ++ [g]) }
      else c) c).user = c.user ∧
    (gs.foldl (fun c g =>
      let c := { c with servers := dictInsert g.id g c.servers }
      if g.large then
        { c with ready_servers := some ((c.ready_servers.getD []) ++ [g]) }
      else c) c).servers = gs.foldl (fun m g => dictInsert g.id g m) c.servers ∧
    (gs.foldl (fun c g =>
      let c := { c with servers := dictInsert g.id g c.servers }
      if g.large then
        { c with ready_servers := some ((c.ready_servers.getD []) ++ [g]) }
      else c) c).private_channels = c.private_channels ∧
    (gs.foldl (fun c g =>
      let c := { c with servers := dictInsert g.id g c.servers }
      if g.large then
        { c with ready_servers := some ((c.ready_servers.getD []) ++ [g]) }
      else c) c).private_channels_by_user = c.private_channels_by_user ∧
    (gs.foldl (fun c g =>
      let c := { c with servers := dictInsert g.id g c.servers }
      if g.large then
        { c with ready_servers := some ((c.ready_servers.getD []) ++ [g]) }
      else c) c).voice_clients = c.voice_clients ∧
    (gs.foldl (fun c g =>
      let c := { c with servers := dictInsert g.id g c.servers }
      if g.large then
        { c with ready_servers := some ((c.ready_servers.getD []) ++ [g]) }
      else c) c).messages = c.messages) := by
  induction gs generalizing c with
  | nil => exact ⟨rfl, rfl, rfl, rfl, rfl, rfl⟩
  | cons g gs ih =>
    simp only [List.foldl_cons]
    by_cases hl : g.large <;>
      simpa [hl] using ih { c with
        servers := dictInsert g.id g c.servers,
        ready_servers := if g.large then some ((c.ready_servers.getD []) ++ [g]) else c.ready_servers }

lemma pm_fold_proj (pms : List PMData) (c : Cache) :
    ((pms.foldl (fun c pm =>
      let ch : PrivChan := { id := pm.id, user := pm.recipient }
      { c with
        private_channels := dictInsert ch.id ch c.private_channels
        private_channels_by_user := dictInsert ch.user.id ch c.private_channels_by_user }) c).user = c.user ∧
    (pms.foldl (fun c pm =>
      let ch : PrivChan := { id := pm.id, user := pm.recipient }
      { c with
        private_channels := dictInsert ch.id ch c.private_channels
        private_channels_by_user := dictInsert ch.user.id ch c.private_channels_by_user }) c).servers = c.servers ∧
    (pms.foldl (fun c pm =>
      let ch : PrivChan := { id := pm.id, user := pm.recipient }
      { c with
        private_channels := dictInsert ch.id ch c.private_channels
        private_channels_by_user := dictInsert ch.user.id ch c.private_channels_by_user }) c).private_channels =
      pms.foldl (fun m pm => dictInsert pm.id { id := pm.id, user := pm.recipient } m) c.private_channels ∧
    (pms.foldl (fun c pm =>
      let ch : PrivChan := { id := pm.id, user := pm.recipient }
      { c with
        private_channels := dictInsert ch.id ch c.private_channels
        private_channels_by_user := dictInsert ch.user.id ch c.private_channels_by_user }) c).private_channels_by_user =
      pms.foldl (fun m pm => dictInsert pm.recipient.id { id := pm.id, user := pm.recipient } m) c.private_channels_by_user ∧
    (pms.foldl (fun c pm =>
      let ch : PrivChan := { id := pm.id, user := pm.recipient }
      { c with
        private_channels := dictInsert ch.id ch c.private_channels
        private_channels_by_user := dictInsert ch.user.id ch c.private_channels_by_user }) c).voice_clients = c.voice_clients ∧
    (pms.foldl (fun c pm =>
      let ch : PrivChan := { id := pm.id, user := pm.recipient }
      { c with
        private_channels := dictInsert ch.id ch c.private_channels
        private_channels_by_user := dictInsert ch.user.id ch c.private_channels_by_user }) c).messages = c.messages) := by
  induction pms generalizing c with
  | nil => exact ⟨rfl, rfl, rfl, rfl, rfl, rfl⟩
  | cons pm pms ih =>
    simp only [List.foldl_cons]
    simpa using ih { c with
      private_channels := dictInsert pm.id { id := pm.id, user := pm.recipient } c.private_channels,
      private_channels_by_user := dictInsert pm.recipient.id { id := pm.id, user := pm.recipient } c.private_channels_by_user }

lemma parse_ready_proj (c : Cache) (r : ReadyPayload) :
    (ConnectionState.parse_ready c (.ready r)).user = some r.user ∧
    (ConnectionState.parse_ready c (.ready r)).servers =
      r.guilds.foldl (fun m g => dictInsert g.id g m) c.servers ∧
    (ConnectionState.parse_ready c (.ready r)).private_channels =
      r.private_channels.foldl (fun m pm => dictInsert pm.id { id := pm.id, user := pm.recipient } m) c.private_channels ∧
    (ConnectionState.parse_ready c (.ready r)).private_channels_by_user =
      r.private_channels.foldl (fun m pm => dictInsert pm.recipient.id { id := pm.id, user := pm.recipient } m) c.private_channels_by_user ∧
    (ConnectionState.parse_ready c (.ready r)).voice_clients = c.voice_clients ∧
    (ConnectionState.parse_ready c (.ready r)).messages = c.messages := by
  unfold ConnectionState.parse_ready
  refine ⟨?_, ?_, ?_, ?_, ?_, ?_⟩
  · rw [(pm_fold_proj r.private_channels _).1, (guild_fold_proj r.guilds _).1]
  · rw [(pm_fold_proj r.private_channels _).2.1, (guild_fold_proj r.guilds _).2.1]
  · rw [(pm_fold_proj r.private_channels _).2.2.1, (guild_fold_proj r.guilds _).2.2.1]
  · rw [(pm_fold_proj r.private_channels _).2.2.2.1, (guild_fold_proj r.guilds _).2.2.2.1]
  · rw [(pm_fold_proj r.private_channels _).2.2.2.2.1, (guild_fold_proj r.guilds _).2.2.2.2.1]
  · rw [(pm_fold_proj r.private_channels _).2.2.2.2.2, (guild_fold_proj r.guilds _).2.2.2.2.2]

lemma received_message_ready_proj (ws : WSState) (r : ReadyPayload) (sv : Option Int) :
    (DiscordWebSocket.received_message stateRouter ws
        { op := some 0, d := .ready r, s := some sv, t := some "READY" }).ws.conn.cache.user = some r.user ∧
    (DiscordWebSocket.received_message stateRouter ws
        { op := some 0, d := .ready r, s := some sv, t := some "READY" }).ws.conn.cache.servers =
      r.guilds.foldl (fun m g => dictInsert g.id g m) [] ∧
    (DiscordWebSocket.received_message stateRouter ws
        { op := some 0, d := .ready r, s := some sv, t := some "READY" }).ws.conn.cache.private_channels =
      r.private_channels.foldl (fun m pm => dictInsert pm.id { id := pm.id, user := pm.recipient } m) [] ∧
    (DiscordWebSocket.received_message stateRouter ws
        { op := some 0, d := .ready r, s := some sv, t := some "READY" }).ws.conn.cache.private_channels_by_user =
      r.private_channels.foldl (fun m pm => dictInsert pm.recipient.id { id := pm.id, user := pm.recipient } m) [] ∧
    (DiscordWebSocket.received_message stateRouter ws
        { op := some 0, d := .ready r, s := some sv, t := some "READY" }).ws.conn.cache.voice_clients = [] ∧
    (DiscordWebSocket.received_message stateRouter ws
        { op := some 0, d := .ready r, s := some sv, t := some "READY" }).ws.conn.cache.messages = [] ∧
    (DiscordWebSocket.received_message stateRouter ws
        { op := some 0, d := .ready r, s := some sv, t := some "READY" }).ws.conn.sequence = sv ∧
    (DiscordWebSocket.received_message stateRouter ws
        { op := some 0, d := .ready r, s := some sv, t := some "READY" }).ws.conn.session_id = some r.session_id ∧
    (DiscordWebSocket.received_message stateRouter ws
        { op := some 0, d := .ready r, s := some sv, t := some "READY" }).handlers = ["READY"] := by
  simp only [DiscordWebSocket.received_message, DiscordWebSocket.RECONNECT,
    DiscordWebSocket.INVALIDATE_SESSION, DiscordWebSocket.DISPATCH, applySeqUpdate,
    readyApply, DiscordWebSocket.received_message_tail, stateRouter,
    ConnectionState.clear]
  norm_num
  exact parse_ready_proj
    { user := none, servers := [], voice_clients := [], private_channels := [],
      private_channels_by_user := [], messages := [],
      ready_servers := ws.conn.cache.ready_servers, listeners := ws.conn.cache.listeners } r

/-- C4.  Processing a DISPATCH "READY" frame wipes the cache completely and
rebuilds it from the payload alone: whatever the prior websocket state, the
resulting user, server map, both private-channel indices, voice handles,
message deque, sequence and session id are functions of the frame only
(voice handles and messages coming out empty) — so processing the same
READY payload from any two states, in particular processing it twice in a
row, yields equivalent cache states with no residue of prior contents. -/
theorem parse_ready_wipes_and_rebuilds (ws₁ ws₂ : WSState) (r : ReadyPayload) (sv : Option Int) :
    ((DiscordWebSocket.received_message stateRouter ws₁
        { op := some 0, d := .ready r, s := some sv, t := some "READY" }).ws.conn.cache.user = some r.user ∧
     (DiscordWebSocket.received_message stateRouter ws₁
        { op := some 0, d := .ready r, s := some sv, t := some "READY" }).ws.conn.cache.voice_clients = [] ∧
     (DiscordWebSocket.received_message stateRouter ws₁
        { op := some 0, d := .ready r, s := some sv, t := some "READY" }).ws.conn.cache.messages = [] ∧
     (DiscordWebSocket.received_message stateRouter ws₁
        { op := some 0, d := .ready r, s := some sv, t := some "READY" }).ws.conn.sequence = sv ∧
     (DiscordWebSocket.received_message stateRouter ws₁
        { op := some 0, d := .ready r, s := some sv, t := some "READY" }).ws.conn.session_id = some r.session_id) ∧
    ((DiscordWebSocket.received_message stateRouter ws₁
        { op := some 0, d := .ready r, s := some sv, t := some "READY" }).ws.conn.cache.user =
      (DiscordWebSocket.received_message stateRouter ws₂
        { op := some 0, d := .ready r, s := some sv, t := some "READY" }).ws.conn.cache.user ∧
     (DiscordWebSocket.received_message stateRouter ws₁
        { op := some 0, d := .ready r, s := some sv, t := some "READY" }).ws.conn.cache.servers =
      (DiscordWebSocket.received_message stateRouter ws₂
        { op := some 0, d := .ready r, s := some sv, t := some "READY" }).ws.conn.cache.servers ∧
     (DiscordWebSocket.received_message stateRouter ws₁
        { op := some 0, d := .ready r, s := some sv, t := some "READY" }).ws.conn.cache.private_channels =
      (DiscordWebSocket.received_message stateRouter ws₂
        { op := some 0, d := .ready r, s := some sv, t := some "READY" }).ws.conn.cache.private_channels ∧
     (DiscordWebSocket.received_message stateRouter ws₁
        { op := some 0, d := .ready r, s := some sv, t := some "READY" }).ws.conn.cache.private_channels_by_user =
      (DiscordWebSocket.received_message stateRouter ws₂
        { op := some 0, d := .ready r, s := some sv, t := some "READY" }).ws.conn.cache.private_channels_by_user ∧
     (DiscordWebSocket.received_message stateRouter ws₁
        { op := some 0, d := .ready r, s := some sv, t := some "READY" }).ws.conn.cache.voice_clients =
      (DiscordWebSocket.received_message stateRouter ws₂
        { op := some 0, d := .ready r, s := some sv, t := some "READY" }).ws.conn.cache.voice_clients ∧
     (DiscordWebSocket.received_message stateRouter ws₁
        { op := some 0, d := .ready r, s := some sv, t := some "READY" }).ws.conn.cache.messages =
      (DiscordWebSocket.received_message stateRouter ws₂
        { op := some 0, d := .ready r, s := some sv, t := some "READY" }).ws.conn.cache.messages ∧
     (DiscordWebSocket.received_message stateRouter ws₁
        { op := some 0, d := .ready r, s := some sv, t := some "READY" }).ws.conn.session_id =
      (DiscordWebSocket.received_message stateRouter ws₂
        { op := some 0, d := .ready r, s := some sv, t := some "READY" }).ws.conn.session_id) := by
  obtain ⟨a1, b1, c1, d1, e1, f1, g1, s1, h1⟩ := received_message_ready_proj ws₁ r sv
  obtain ⟨a2, b2, c2, d2, e2, f2, g2, s2, h2⟩ := received_message_ready_proj ws₂ r sv
  exact ⟨⟨a1, e1, f1, g1, s1⟩,
    a1.trans a2.symm, b1.trans b2.symm, c1.trans c2.symm, d1.trans d2.symm,
    e1.trans e2.symm, f1.trans f2.symm, s1.trans s2.symm⟩

lemma delay_ready_splits_spec (servers : List ServerData) :
    (ConnectionState.delay_ready_splits servers).flatten = servers ∧
    (∀ b ∈ ConnectionState.delay_ready_splits servers, b.length ≤ 75) ∧
    (ConnectionState.delay_ready_splits servers).length = (servers.length + 74) / 75 := by
  have key : ∀ n (l : List ServerData), l.length ≤ n →
      (ConnectionState.delay_ready_splits l).flatten = l ∧
      (∀ b ∈ ConnectionState.delay_ready_splits l, b.length ≤ 75) ∧
      (ConnectionState.delay_ready_splits l).length = (l.length + 74) / 75 := by
    intro n
    induction n with
    | zero =>
      intro l hl
      have : l = [] := List.length_eq_zero.mp (Nat.le_zero.mp hl)
      subst this
      rw [ConnectionState.delay_ready_splits]
      exact ⟨rfl, fun b hb => absurd hb (List.not_mem_nil b), rfl⟩
    | succ n ih =>
      intro l hl
      cases l with
      | nil =>
        rw [ConnectionState.delay_ready_splits]
        exact ⟨rfl, fun b hb => absurd hb (List.not_mem_nil b), rfl⟩
      | cons s rest =>
        simp only [List.length_cons] at hl
        have hdrop : ((s :: rest).drop 75).length ≤ n := by
          simp only [List.length_drop, List.length_cons]
          omega
        obtain ⟨ihf, ihb, ihl⟩ := ih ((s :: rest).drop 75) hdrop
        rw [ConnectionState.delay_ready_splits]
        refine ⟨?_, ?_, ?_⟩
        · simp only [List.flatten_cons, ihf]
          exact List.take_append_drop 75 (s :: rest)
        · intro b hb
          rcases List.mem_cons.mp hb with h | h
          · subst h
            exact List.length_take_le 75 _
          · exact ihb b h
        · simp only [List.length_cons, ihl, List.length_drop]
          omega
  exact key servers.length servers le_rfl

lemma settleRun_append (st : SettleState) (t1 t2 : List SettleEv) :
    settleRun st (t1 ++ t2) =
      match settleRun st t1 with
      | none => none
      | some m => settleRun m t2 := by
  induction t1 generalizing st with
  | nil => rfl
  | cons e t1 ih =>
    simp only [List.cons_append, settleRun]
    cases settleStep st e with
    | none => rfl
    | some st2 => exact ih st2

lemma eraseP_perm_gid (l : List ChunkWaiter) (g : String)
    (h : l.any (fun w => w.guild_id == g) = true) :
    (l.map (fun w => w.guild_id)).Perm
      (g :: (l.eraseP (fun w => w.guild_id == g)).map (fun w => w.guild_id)) := by
  induction l with
  | nil => simp at h
  | cons a l ih =>
    by_cases ha : (a.guild_id == g) = true
    · have := beq_iff_eq.mp ha
      simp [List.eraseP_cons, ha, this]
    · have hl : l.any (fun w => w.guild_id == g) = true := by
        simp only [List.any_cons, ha, Bool.false_or] at h
        exact h
      simp only [List.eraseP_cons, ha, Bool.false_eq_true, if_false, List.map_cons]
      exact (List.Perm.cons a.guild_id (ih hl)).trans (List.Perm.swap g a.guild_id _)

lemma settleRun_perm (tr : List SettleEv) (st st' : SettleState)
    (h : settleRun st tr = some st') :
    (st.pending.map (fun w => w.guild_id)).Perm
      (settleResolves tr ++ st'.pending.map (fun w => w.guild_id)) := by
  induction tr generalizing st with
  | nil =>
    simp only [settleRun, Option.some.injEq] at h
    subst h
    simp [settleResolves]
  | cons e rest ih =>
    cases e with
    | resolve g =>
      by_cases hc : st.pending.any (fun w => w.guild_id == g) = true
      · simp only [settleRun, settleStep, hc, if_true] at h
        have hperm := ih _ h
        simp only [settleResolves, List.filterMap_cons, List.cons_append] at hperm ⊢
        exact (eraseP_perm_gid st.pending g hc).trans (List.Perm.cons g hperm)
      · simp only [settleRun, settleStep, hc] at h
        simp at h
    | fireReady =>
      by_cases hc : (st.pending.isEmpty && !st.readyEmitted) = true
      · simp only [settleRun, settleStep, hc, if_true] at h
        have hperm := ih _ h
        simpa [settleResolves] using hperm
      · simp only [settleRun, settleStep, hc] at h
        simp at h

/-- C5.  During ready-settle: every staged large server gets
`ceil(member_count / 1000)` member-chunk completion waiters; the staged
servers are split into consecutive batches of at most 75 with one
`REQUEST_MEMBERS` send per batch (so 200 staged servers give exactly 3
batches); and the synthetic `ready` can only be dispatched after every
created chunk waiter has been resolved — the resolutions preceding the
ready event cover the whole waiter list. -/
theorem ready_settle_chunking :
    (∀ server : ServerData,
      (ConnectionState.chunks_needed server).length = (server.member_count + 999) / 1000 ∧
      ∀ w ∈ ConnectionState.chunks_needed server, w.guild_id = server.id) ∧
    (∀ servers : List ServerData,
      (ConnectionState.delay_ready_splits servers).flatten = servers ∧
      (∀ b ∈ ConnectionState.delay_ready_splits servers, b.length ≤ 75) ∧
      (ConnectionState.delay_ready_splits servers).length = (servers.length + 74) / 75) ∧
    (∀ servers : List ServerData, servers.length = 200 →
      (ConnectionState.delay_ready_splits servers).length = 3) ∧
    (∀ (servers : List ServerData) (tr : List SettleEv) (st' : SettleState)
       (t1 t2 : List SettleEv),
      settleRun { pending := ConnectionState.delay_ready_chunks servers, readyEmitted := false }
        tr = some st' →
      tr = t1 ++ .fireReady :: t2 →
      (settleResolves t1).Perm
        ((ConnectionState.delay_ready_chunks servers).map (fun w => w.guild_id))) := by
  refine ⟨?_, delay_ready_splits_spec, ?_, ?_⟩
  · intro server
    constructor
    · simp [ConnectionState.chunks_needed]
    · intro w hw
      simp only [ConnectionState.chunks_needed, List.mem_map] at hw
      obtain ⟨i, _, hi⟩ := hw
      rw [← hi]
  · intro servers hlen
    rw [(delay_ready_splits_spec servers).2.2, hlen]
  · intro servers tr st' t1 t2 hrun htr
    subst htr
    rw [settleRun_append] at hrun
    rcases hmid : (settleRun { pending := ConnectionState.delay_ready_chunks servers, readyEmitted := false } t1) with _ | mid
    · rw [hmid] at hrun; cases hrun
    · rw [hmid] at hrun
      simp only [settleRun] at hrun
      rcases hstep : settleStep mid .fireReady with _ | mid2
      · rw [hstep] at hrun; cases hrun
      · have hcond : (mid.pending.isEmpty && !mid.readyEmitted) = true := by
          by_cases hc : (mid.pending.isEmpty && !mid.readyEmitted) = true
          · exact hc
          · simp only [settleStep, hc, Bool.false_eq_true, if_false] at hstep
            cases hstep
        have hempty : mid.pending = [] := by
          simp only [Bool.and_eq_true] at hcond
          exact List.isEmpty_iff.mp hcond.1
        have hperm := settleRun_perm t1 _ mid hmid
        rw [hempty] at hperm
        simpa using hperm.symm

/-- C5 witness: a 2500-member server needs 3 chunk waiters; 200 staged
servers give 3 batches; and a settle run over two staged servers can fire
`ready` only after resolving both waiters — the resolutions before the
ready event cover the whole waiter list. -/
theorem ready_settle_chunking_witness :
    (ConnectionState.chunks_needed { id := "g", large := true, member_count := 2500, name := "" }).length = 3 ∧
    (ConnectionState.delay_ready_splits (List.replicate 200 srvA)).length = 3 ∧
    settleRun { pending := ConnectionState.delay_ready_chunks [srvA, srvB], readyEmitted := false }
      ([SettleEv.resolve "ga", SettleEv.resolve "gb"] ++ SettleEv.fireReady :: []) =
      some { pending := [], readyEmitted := true } ∧
    (settleResolves [SettleEv.resolve "ga", SettleEv.resolve "gb"]).Perm
      ((ConnectionState.delay_ready_chunks [srvA, srvB]).map (fun w => w.guild_id)) := by
  have h := ready_settle_chunking
  have hrun : settleRun { pending := ConnectionState.delay_ready_chunks [srvA, srvB], readyEmitted := false }
      ([SettleEv.resolve "ga", SettleEv.resolve "gb"] ++ SettleEv.fireReady :: []) =
      some { pending := [], readyEmitted := true } := by decide
  exact ⟨(h.1 _).1.trans (by norm_num),
    h.2.2.1 (List.replicate 200 srvA) (by rw [List.length_replicate]),
    hrun,
    h.2.2.2 [srvA, srvB] _ { pending := [], readyEmitted := true }
      [SettleEv.resolve "ga", SettleEv.resolve "gb"] [] hrun rfl⟩

lemma received_message_tail_seq (router : String → Option (Cache → Payload → Cache))
    (ws : WSState) (msg : Frame) (event : Option String) :
    (DiscordWebSocket.received_message_tail router ws msg event).ws.conn.sequence =
      ws.conn.sequence := by
  cases event with
  | none => rfl
  | some ev =>
    cases hro : router ev with
    | none => simp only [DiscordWebSocket.received_message_tail, hro]
    | some f => simp only [DiscordWebSocket.received_message_tail, hro]

lemma received_message_seq_of_dispatch (router : String → Option (Cache → Payload → Cache))
    (ws : WSState) (f : Frame) (k : Int)
    (hop : f.op = some 0) (hs : f.s = some (some k)) :
    (DiscordWebSocket.received_message router ws f).ws.conn.sequence = some k := by
  obtain ⟨op, d, s, t⟩ := f
  simp only at hop hs
  subst hop
  subst hs
  simp only [DiscordWebSocket.received_message, applySeqUpdate,
    DiscordWebSocket.RECONNECT, DiscordWebSocket.INVALIDATE_SESSION, DiscordWebSocket.DISPATCH,
    Option.some.injEq, OfNat.ofNat_ne_one, OfNat.zero_ne_ofNat, reduceCtorEq]
  norm_num
  by_cases ht : t = some "READY"
  · simp only [ht, if_pos rfl, readyApply, ConnectionState.clear]
    cases d with
    | ready r =>
      simp only [true_or, if_true]
      rw [received_message_tail_seq]
    | null => simp
    | msgUpd m => simp
    | tagged n => simp
  · simp only [ht, if_neg ht, Bool.false_eq_true, if_false, reduceIte]
    by_cases hres : t = some "RESUMED"
    · simp only [hres, if_pos, eq_self_iff_true, or_true, reduceIte]
      cases d with
      | ready r => rw [received_message_tail_seq]
      | null => rfl
      | msgUpd m => rfl
      | tagged n => rfl
    · simp only [ht, hres, or_self, Bool.false_eq_true, if_false, reduceIte]
      rw [received_message_tail_seq]

lemma sOf_exists_of_isSome (f : Frame) (h : (sOf f).isSome) :
    ∃ k : Int, f.s = some (some k) := by
  rcases hs : f.s with _ | v
  · rw [sOf, hs] at h; simp at h
  · rcases v with _ | k
    · rw [sOf, hs] at h; simp at h
    · exact ⟨k, rfl⟩

lemma processRun_seq (router : String → Option (Cache → Payload → Cache))
    (ws : WSState) (frames : List Frame)
    (h1 : ∀ f ∈ frames, f.op = some 0 ∧ (sOf f).isSome)
    (h3 : (processRun router ws frames).2 = GwOutcome.ok)
    (hne : frames ≠ []) :
    (processRun router ws frames).1.conn.sequence = (frames.filterMap sOf).getLast? := by
  induction frames generalizing ws with
  | nil => exact absurd rfl hne
  | cons f rest ih =>
    obtain ⟨hop, hsome⟩ := h1 f (by simp)
    obtain ⟨k, hk⟩ := sOf_exists_of_isSome f hsome
    have hsof : sOf f = some k := by rw [sOf, hk]; rfl
    have hseq := received_message_seq_of_dispatch router ws f k hop hk
    simp only [processRun] at h3 ⊢
    cases ho : (DiscordWebSocket.received_message router ws f).outcome with
    | reconnectRaised => rw [ho] at h3; simp at h3
    | raised e => rw [ho] at h3; simp at h3
    | ok =>
      rw [ho] at h3
      dsimp only at h3 ⊢
      cases rest with
      | nil =>
        simp only [processRun, List.filterMap_cons, hsof, List.filterMap_nil]
        exact hseq
      | cons g rest2 =>
        obtain ⟨hgop, hgsome⟩ := h1 g (by simp)
        obtain ⟨m, hm⟩ := sOf_exists_of_isSome g hgsome
        have hgsof : sOf g = some m := by rw [sOf, hm]; rfl
        have hrec := ih (DiscordWebSocket.received_message router ws f).ws
          (fun x hx => h1 x (by simp [hx])) h3 (by simp)
        rw [hrec]
        simp only [List.filterMap_cons, hsof, hgsof]
        rfl

lemma chain_le_maxS_getLast (x : Int) (xs : List Int)
    (h : List.Chain' (· ≤ ·) (x :: xs)) :
    maxS (x :: xs) = (x :: xs).getLast? := by
  induction xs generalizing x with
  | nil => rfl
  | cons y ys ih =>
    obtain ⟨hxy, htail⟩ := List.chain'_cons.mp h
    have hmax : max x y = y := max_eq_right hxy
    have := ih y htail
    simp only [maxS, List.foldl_cons] at this ⊢
    rw [hmax, this, List.getLast?_cons_cons]

/-- C1.  Every frame carrying a top-level `s` key stores its value into the
session's sequence before any opcode or event handling (processing a frame
coincides with processing it after the sequence write has already been
applied); consequently, over any completed run of DISPATCH frames carrying
monotonically non-decreasing `s` values — whatever their event names, known
or unknown, and whatever `parse_` handlers the connection state exposes —
the stored sequence ends equal to the maximum `s` seen. -/
theorem received_message_updates_sequence
    (router : String → Option (Cache → Payload → Cache))
    (ws : WSState) (frames : List Frame)
    (h1 : ∀ f ∈ frames, f.op = some 0 ∧ (sOf f).isSome)
    (h2 : List.Chain' (· ≤ ·) (frames.filterMap sOf))
    (h3 : (processRun router ws frames).2 = GwOutcome.ok)
    (hne : frames ≠ []) :
    (∀ (w : WSState) (m : Frame) (v : Option Int), m.s = some v →
        (applySeqUpdate w m).conn.sequence = v ∧
        DiscordWebSocket.received_message router w m =
          DiscordWebSocket.received_message router (applySeqUpdate w m) m) ∧
    (processRun router ws frames).1.conn.sequence = maxS (frames.filterMap sOf) := by
  constructor
  · intro w m v hv
    have hidem : applySeqUpdate (applySeqUpdate w m) m = applySeqUpdate w m := by
      simp [applySeqUpdate, hv]
    constructor
    · simp [applySeqUpdate, hv]
    · conv_rhs => rw [DiscordWebSocket.received_message]
      rw [hidem]
      rfl
  · rw [processRun_seq router ws frames h1 h3 hne]
    cases hfm : frames.filterMap sOf with
    | nil => rfl
    | cons x xs =>
      rw [hfm] at h2
      exact (chain_le_maxS_getLast x xs h2).symm

/-- C1 witness: a completed run of two dispatch frames with non-decreasing
sequences 3 then 5 — both with event names the connection state has no
handler for — leaves the stored sequence at the maximum, 5. -/
theorem received_message_updates_sequence_witness :
    (∀ f ∈ [seqFrame1, seqFrame2], f.op = some 0 ∧ (sOf f).isSome) ∧
    List.Chain' (· ≤ ·) ([seqFrame1, seqFrame2].filterMap sOf) ∧
    (processRun stateRouter { conn := {} } [seqFrame1, seqFrame2]).2 = GwOutcome.ok ∧
    (processRun stateRouter { conn := {} } [seqFrame1, seqFrame2]).1.conn.sequence =
      maxS ([seqFrame1, seqFrame2].filterMap sOf) ∧
    maxS ([seqFrame1, seqFrame2].filterMap sOf) = some 5 := by
  have h1 : ∀ f ∈ [seqFrame1, seqFrame2], f.op = some 0 ∧ (sOf f).isSome := by decide
  have hfm : ([seqFrame1, seqFrame2].filterMap sOf) = [(3 : Int), 5] := rfl
  have h2 : List.Chain' (· ≤ ·) ([seqFrame1, seqFrame2].filterMap sOf) := by
    rw [hfm]
    exact List.chain'_cons.mpr ⟨by norm_num, List.chain'_singleton 5⟩
  have h3 : (processRun stateRouter { conn := {} } [seqFrame1, seqFrame2]).2 = GwOutcome.ok := by
    decide
  exact ⟨h1, h2, h3,
    (received_message_updates_sequence stateRouter { conn := {} } [seqFrame1, seqFrame2]
      h1 h2 h3 (by simp)).2,
    by decide⟩
